import Mathlib

/-!
Verification of the surface-morphometrics GUI core against its
natural-language specification.

The development shallowly embeds the parts of the Python source that the
claims are about:

* `src/morphometrics_config.py` — `ConfigYAMLPreserver.update` (the
  recursive `deep_merge`) and `ConfigYAMLPreserver.save` (backup-then-write).
* `src/experiment_manager.py` — `ExperimentManager._create_new_experiment`.
* `src/utils/archive_utils.py` — the check phase of
  `check_and_archive_outputs`.
* `src/jobs/distance_tab.py` and `src/jobs/pycurv_tab.py` — the per-file
  worker loops (`_run_job_worker`, `process_mrc_file`, `process_vtp_file`),
  the symlink alias discipline, the progress reporting, and the
  `is_running` guard of `_run_job` / `_job_cleanup`.

YAML documents are modelled as trees of string-keyed association lists
(`Val`), matching Python dict semantics (insertion order preserved,
assignment replaces in place, duplicate-free keys).  File systems are
association lists from path strings to file contents.  The concurrent
completion loop (`concurrent.futures.as_completed`) is modelled as a fold
over the per-item results in completion order: the loop body runs on a
single thread in the source, and the completion order is left abstract (an
arbitrary list).  The progress expression `int((c / t) * 100)` is modelled
exactly as CPython computes it, in IEEE-754 binary64 (two
round-to-nearest-even roundings at 53 significant bits, then truncation),
over integers.
-/

namespace Morphometrics

/-! ## String helpers

Built on explicit character lists so that every concrete instance reduces
inside the kernel. -/

/-- The whitespace characters Python `str.strip` removes (the ones that can
occur in the GUI's text fields). -/
def isPySpace (c : Char) : Bool :=
  c = ' ' || c = '\t' || c = '\n' || c = '\r'

/-- Python `str.strip()`. -/
def pyStrip (s : String) : String :=
  (((s.toList.dropWhile isPySpace).reverse.dropWhile isPySpace).reverse).asString

/-- Python `name.startswith('.')`. -/
def startsDot (name : String) : Bool :=
  match name.toList with
  | [] => false
  | c :: _ => c = '.'

/-! ## YAML value trees (the config data model) -/

/-- A YAML value as handled by the Python code: a scalar (number, string or
boolean, kept abstract as its text), a list, or a nested mapping.  Mappings
are association lists in insertion order, as Python dicts are. -/
inductive Val where
  | prim : String → Val
  | arr : List Val → Val
  | dict : List (String × Val) → Val
  deriving Repr

/-- Python `d[k]` / `d.get(k)` lookup on an (insertion-ordered,
duplicate-free) dict. -/
def lookupKey {α : Type} : List (String × α) → String → Option α
  | [], _ => none
  | (k, v) :: rest, key => if k = key then some v else lookupKey rest key

/-- Python `d[k] = v`: replace the value in place if the key is present,
otherwise append the new pair at the end. -/
def setKey {α : Type} : List (String × α) → String → α → List (String × α)
  | [], key, v => [(key, v)]
  | (k, w) :: rest, key, v =>
      if k = key then (k, v) :: rest else (k, w) :: setKey rest key v

/-- Python `del d[k]` (at most one occurrence is present). -/
def eraseKey {α : Type} : List (String × α) → String → List (String × α)
  | [], _ => []
  | (k, v) :: rest, key => if k = key then rest else (k, v) :: eraseKey rest key

/-- The recursive `deep_merge(d1, d2)` of `ConfigYAMLPreserver.update`
(`src/morphometrics_config.py:61-66`): for each key of the update, if both
sides hold a dict the merge recurses, otherwise the update's value is
assigned. -/
def deepMerge : List (String × Val) → List (String × Val) → List (String × Val)
  | d1, [] => d1
  | d1, (k, Val.dict m2) :: rest =>
      match lookupKey d1 k with
      | some (Val.dict m1) => deepMerge (setKey d1 k (Val.dict (deepMerge m1 m2))) rest
      | _ => deepMerge (setKey d1 k (Val.dict m2)) rest
  | d1, (k, v) :: rest => deepMerge (setKey d1 k v) rest

/-! ## File systems

A file system is an association list from absolute path strings to file
contents (a plain string for `ConfigYAMLPreserver`, which holds the raw
document text in `self.content`; a parsed `Val` dict for the experiment
manager, which round-trips YAML documents). -/

/-- `os.rename(src, dst)` / `Path.rename`: move the content found at `src`
to `dst`, clobbering `dst`. -/
def renamePath {α : Type} (fs : List (String × α)) (src dst : String) :
    List (String × α) :=
  match lookupKey fs src with
  | some c => setKey (eraseKey fs src) dst c
  | none => fs

/-- `Path.with_suffix('.bak')` on the final path component: replace the
last dot-extension of the file name (a leading dot marks a hidden file,
not an extension), or append when there is none. -/
def withSuffixBakName (name : List Char) : List Char :=
  let revTail := name.reverse.dropWhile (fun c => c ≠ '.')
  match revTail with
  | [] => name ++ [ '.', 'b', 'a', 'k' ]
  | _ :: stemRev =>
      if stemRev.isEmpty then name ++ [ '.', 'b', 'a', 'k' ]
      else stemRev.reverse ++ [ '.', 'b', 'a', 'k' ]

/-- `Path.with_suffix('.bak')` on a whole path. -/
def withSuffixBak (p : String) : String :=
  let cs := p.toList
  let revName := cs.reverse.takeWhile (fun c => c ≠ '/')
  let revDir := cs.reverse.dropWhile (fun c => c ≠ '/')
  (revDir.reverse ++ withSuffixBakName revName.reverse).asString

/-- Result of `ConfigYAMLPreserver.save`: the file system afterwards, and
whether the call re-raised the write failure. -/
structure SaveOutcome where
  fs : List (String × String)
  raised : Bool
  deriving Repr, DecidableEq

/-- `ConfigYAMLPreserver.save` (`src/morphometrics_config.py:74-86`): if the
target exists, rename it to the `.bak` path; then write `self.content`; on a
write failure rename the backup over the target again and re-raise.
`writeOk` abstracts whether the `open`/`write` succeeds; a failed write
leaves a truncated target behind (modelled as `""`) before the backup is
renamed over it. -/
def saveConfig (fs : List (String × String)) (p content : String) (writeOk : Bool) :
    SaveOutcome :=
  let bak := withSuffixBak p
  let hasBackup := (lookupKey fs p).isSome
  let fs1 := if hasBackup then renamePath fs p bak else fs
  if writeOk then ⟨setKey fs1 p content, false⟩
  else
    let fsFail := setKey fs1 p ""
    ⟨if hasBackup then renamePath fsFail bak p else fsFail, true⟩

/-! ## Experiment creation (`ExperimentManager._create_new_experiment`) -/

/-- A parsed YAML config document. -/
def ConfigDoc : Type := List (String × Val)

/-- The UI fields `_create_new_experiment` reads
(`src/experiment_manager.py:629-664`). -/
structure ManagerState where
  workDir : String
  expNameText : String
  dataDir : String
  configTemplate : String
  cores : Nat
  segValues : List (String × Val)

/-- `Path(self.work_dir.value) / experiment_name`. -/
def experimentDir (st : ManagerState) : String :=
  st.workDir ++ "/" ++ pyStrip st.expNameText

/-- `experiment_dir / f"(experiment_name)_config.yml"`. -/
def newConfigPath (st : ManagerState) : String :=
  experimentDir st ++ "/" ++ pyStrip st.expNameText ++ "_config.yml"

/-- The config derived from the template: the universal section is
overridden in source order (`data_dir`, `work_dir`, `exp_name`, `cores`,
`segmentation_values`). -/
def derivedConfig (st : ManagerState) (tmpl : ConfigDoc) : ConfigDoc :=
  setKey
    (setKey
      (setKey
        (setKey
          (setKey tmpl "data_dir" (Val.prim st.dataDir))
          "work_dir" (Val.prim (experimentDir st)))
        "exp_name" (Val.prim (pyStrip st.expNameText)))
      "cores" (Val.prim (toString st.cores)))
    "segmentation_values" (Val.dict st.segValues)

/-- Observable result of `_create_new_experiment`: silently returning
because a required field is blank, showing the critical-error dialog from
the `except` clause, or showing the success dialog. -/
inductive CreateResult where
  | noOp
  | errorShown
  | success
  deriving Repr, DecidableEq

/-- `ExperimentManager._create_new_experiment`
(`src/experiment_manager.py:629-677`): bail out silently if any required
field is blank; `mkdir(parents=True, exist_ok=True)` (never fails on an
existing directory and is invisible in a file map); read the template
(failure is caught and shown as an error); override the universal keys; and
write the result to `(exp_name)_config.yml`, replacing whatever was there. -/
def createNewExperiment (st : ManagerState) (fs : List (String × ConfigDoc)) :
    List (String × ConfigDoc) × CreateResult :=
  if st.workDir = "" ∨ pyStrip st.expNameText = "" ∨ st.configTemplate = "" ∨ st.dataDir = ""
  then (fs, CreateResult.noOp)
  else
    match lookupKey fs st.configTemplate with
    | none => (fs, CreateResult.errorShown)
    | some tmpl => (setKey fs (newConfigPath st) (derivedConfig st tmpl), CreateResult.success)

/-! ## Archive check (`check_and_archive_outputs`, check phase) -/

/-- One entry of `results_dir`, as seen by `Path.glob`: its name, whether it
is a directory, and (for directories) whether `any(p.iterdir())` holds. -/
structure DirEntry where
  name : String
  isDir : Bool
  hasChildren : Bool
  deriving Repr, DecidableEq

/-- `fnmatch`-style glob matching over the patterns the repository uses:
`*` matches any (possibly empty) run of characters, every other character
matches itself.  `pathlib.Path.glob` and `Path.match` both apply this to
the entry name, with no special-casing of leading dots. -/
def globMatchF : Nat → List Char → List Char → Bool
  | 0, _, _ => false
  | _ + 1, [], s => s.isEmpty
  | fuel + 1, '*' :: ps, [] => globMatchF fuel ps []
  | fuel + 1, '*' :: ps, sc :: ss =>
      globMatchF fuel ps (sc :: ss) || globMatchF fuel ('*' :: ps) ss
  | _ + 1, _ :: _, [] => false
  | fuel + 1, c :: ps, sc :: ss => c = sc && globMatchF fuel ps ss

/-- The matcher with enough fuel: every recursive step of `globMatchF`
shortens the pattern or the text, so `|pattern| + |text| + 1` steps always
suffice. -/
def globMatch (p s : List Char) : Bool :=
  globMatchF (p.length + s.length + 1) p s

/-- Glob matching on strings (`fnmatch.fnmatch` on a posix system). -/
def globMatches (pattern name : String) : Bool :=
  globMatch pattern.toList name.toList

/-- Python `needle in hay` substring test. -/
def hasSubstr (needle : List Char) : List Char → Bool
  | [] => needle.isEmpty
  | c :: rest => needle.isPrefixOf (c :: rest) || hasSubstr needle rest

/-- `"archive_" in p.name`. -/
def nameHasArchive (name : String) : Bool :=
  hasSubstr "archive_".toList name.toList

/-- The check phase of `check_and_archive_outputs`
(`src/utils/archive_utils.py:36-60`): for each requested pattern, glob the
results directory; drop excluded entries; keep files whose name does not
start with a dot; keep non-`archive_` directories when the pattern that
found them is `*` and they are non-empty. -/
def checkOutputs (entries : List DirEntry) (filePatterns excludePatterns : List String) :
    List DirEntry :=
  filePatterns.flatMap (fun pattern =>
    (entries.filter (fun p => globMatches pattern p.name)).filterMap (fun p =>
      if excludePatterns.any (fun exc => globMatches exc p.name) then none
      else if !p.isDir && !startsDot p.name then some p
      else if p.isDir && !nameHasArchive p.name then
        (if pattern = "*" && p.hasChildren then some p else none)
      else none))

/-! ## The per-file job worker loops -/

/-- How one invocation of the external analysis process ends:
with an exit code (zero = success; non-zero raises `CalledProcessError`,
which the per-file function catches), or with some other exception that
the per-file function of the distance tab does not catch. -/
inductive ExecOutcome where
  | exit : Int → ExecOutcome
  | raiseOther : ExecOutcome
  deriving Repr, DecidableEq

/-- State of the per-item symlink alias path (`link_path`): whether
something is present there and whether it is a symlink. -/
structure LinkState where
  present : Bool
  isLink : Bool
  deriving Repr, DecidableEq

/-- `process_mrc_file` of `DistanceOrientationWidget._run_job_worker`
(`src/jobs/distance_tab.py:255-298`), tracking the alias path: the `try`
prologue removes any stale entry at `link_path` and creates the symlink;
the subprocess then exits or raises; the `finally` clause removes the path
again if it is a symlink.  The returned option is the recorded per-item
return code — `none` means the exception propagated out of the executor. -/
def processWithLink (s : LinkState) (o : ExecOutcome) : LinkState × Option Int :=
  let afterCreate : LinkState := ⟨true, true⟩
  let recordedRC : Option Int :=
    match o with
    | ExecOutcome.exit rc => some rc
    | ExecOutcome.raiseOther => none
  let afterFinally : LinkState :=
    if afterCreate.isLink then ⟨false, false⟩ else afterCreate
  (afterFinally, recordedRC)

/-- The per-item result view of `process_mrc_file` (starting from a clean
alias path). -/
def process_mrc_file (o : ExecOutcome) : Option Int :=
  (processWithLink ⟨false, false⟩ o).2

/-- `link_name = f"(exp_name)(mrc_file.name)"`
(`src/jobs/distance_tab.py:267`). -/
def linkName (expName fileName : String) : String :=
  expName ++ fileName

/-- How one pycurv item ends: the file is outside the work dir
(`relative_to` raises `ValueError`, recorded as `-1`), the subprocess exits
with a code, or some other exception is raised (caught, recorded as `-1`). -/
inductive PyOutcome where
  | notRelative : PyOutcome
  | exit : Int → PyOutcome
  | raiseOther : PyOutcome
  deriving Repr, DecidableEq

/-- `process_vtp_file` of `PyCurvWidget._run_job_worker`
(`src/jobs/pycurv_tab.py:268-295`): every exception is caught, so a return
code is always produced (`CalledProcessError` is recorded as `1`). -/
def process_vtp_file : PyOutcome → Int
  | PyOutcome.notRelative => -1
  | PyOutcome.exit rc => if rc = 0 then 0 else 1
  | PyOutcome.raiseOther => -1

/-! ### The progress arithmetic

Both loops compute `progress = int((processed_count / total_files) * 100)`.
CPython evaluates this in IEEE-754 binary64: one correctly-rounded division
`k / t`, one correctly-rounded multiplication by 100, then truncation.
The result can differ from the exact floor `100 * k / t` (at `k = 29`,
`t = 100` the float product is slightly below 29, so `int` yields 28).
The computation is modelled exactly, over integers: a binary64 operation on
these inputs is round-to-nearest, ties-to-even at 53 significant bits
(`k / t ∈ (0, 1]` and the product `≤ 100` stay far from the exponent range
limits, so no overflow or subnormals arise for any realistic file count). -/

/-- `⌊log₂ n⌋` by repeated halving, fuel-recursive so that every concrete
instance reduces inside the kernel. -/
def intLog2F : Nat → Nat → Nat
  | 0, _ => 0
  | fuel + 1, n => if n ≤ 1 then 0 else intLog2F fuel (n / 2) + 1

/-- `⌊log₂ n⌋` for `n ≥ 1`. -/
def natLog2 (n : Nat) : Nat := intLog2F n n

/-- The exact quotient `a / b` rounded to the nearest integer, ties to
even — the rounding IEEE-754 applies to an exact value at a given
precision. -/
def rneDiv (a b : Nat) : Nat :=
  let q := a / b
  let r := a % b
  if 2 * r < b then q
  else if b < 2 * r then q + 1
  else if q % 2 = 0 then q else q + 1

/-- The scaling exponent of the binary64 division `k / t` for
`1 ≤ k ≤ t`: the `s` with `t * 2^52 ≤ k * 2^s < t * 2^53`, so that the
53-bit significand of the quotient is `k * 2^s / t` rounded to nearest. -/
def flShift (k t : Nat) : Nat :=
  let s0 := 52 + natLog2 t - natLog2 k
  if t * 2 ^ 52 ≤ k * 2 ^ s0 then
    if k * 2 ^ s0 < t * 2 ^ 53 then s0 else s0 - 1
  else s0 + 1

/-- The 53-bit significand of the binary64 quotient `k / t`; the quotient's
value is `flDivM k t * 2 ^ (-flShift k t)`. -/
def flDivM (k t : Nat) : Nat := rneDiv (k * 2 ^ flShift k t) t

/-- How many low bits the product `significand * 100` (a value in
`(2^58, 2^60)`) must drop to renormalize to 53 significant bits. -/
def flD (v : Nat) : Nat := if v < 2 ^ 59 then 6 else 7

/-- The 53-bit significand of the binary64 product `quotient * 100`. -/
def flM2 (v : Nat) : Nat := rneDiv v (2 ^ flD v)

/-- `int((k / t) * 100)` as CPython evaluates it: divide (round to
nearest binary64), multiply by 100 (round again), truncate.  The final
value is `flM2 v * 2 ^ (flD v - flShift k t)` truncated, with
`flShift ≥ 52 > 7 ≥ flD`, hence the floor shift. -/
def pyProgress (k t : Nat) : Nat :=
  if k = 0 ∨ t = 0 then 0
  else flM2 (flDivM k t * 100) / 2 ^ (flShift k t - flD (flDivM k t * 100))

/-- `success_count`: how many recorded return codes are zero (the loop
increments it on each `result.get('return_code') == 0`). -/
def succeededCount : List Int → Nat
  | [] => 0
  | rc :: rest => (if rc = 0 then 1 else 0) + succeededCount rest

/-- The recorded items that were not successes. -/
def failedCount : List Int → Nat
  | [] => 0
  | rc :: rest => (if rc = 0 then 0 else 1) + failedCount rest

/-- What the `as_completed` loop accumulates. -/
structure CollectResult where
  recorded : List Int
  progress : List Nat
  ok : Bool
  deriving Repr, DecidableEq

/-- The `as_completed` completion loop shared by both tabs
(`src/jobs/distance_tab.py:300-314`, `src/jobs/pycurv_tab.py:297-311`), run
over the per-item results in completion order.  Each iteration calls
`future.result()`: a `none` re-raises the executor's exception, which
aborts the loop (`ok = false`).  Otherwise, under the lock, the processed
counter is bumped, `progress = int((processed / total) * 100)` is computed
(`pyProgress`, the exact model of the binary64 evaluation), and the status
sink receives the progress value. -/
def collectLoop (total : Nat) (done : Nat) : List (Option Int) → CollectResult
  | [] => ⟨[], [], true⟩
  | none :: _ => ⟨[], [], false⟩
  | some rc :: rest =>
      let r := collectLoop total (done + 1) rest
      ⟨rc :: r.recorded, pyProgress (done + 1) total :: r.progress, r.ok⟩

/-- How a `_run_job_worker` invocation ends: early return because no input
files were found or selected, the final completion status message with its
success count, or the `except` clause's critical-error status. -/
inductive RunStatus where
  | noFiles
  | completed : Nat → RunStatus
  | criticalError
  deriving Repr, DecidableEq

/-- The observable behaviour of one `_run_job_worker` run: recorded
per-item return codes in completion order, progress values delivered to the
status sink, the final status, and the worker count handed to the thread
pool (`0` = no pool was created). -/
structure WorkerRun where
  recorded : List Int
  progress : List Nat
  status : RunStatus
  workers : Nat
  deriving Repr, DecidableEq

/-- `DistanceOrientationWidget._run_job_worker`
(`src/jobs/distance_tab.py:242-318`): an empty MRC list returns early
(`'Error: No MRC files found'`) before any pool exists; otherwise
`max_workers = min(cores, total)` and the completion loop runs.  If the
loop finishes, the final status reports the success count; if an item's
exception re-raises out of `future.result()`, the worker's `except` clause
reports a critical error instead. -/
def distanceRunWorker (cores : Nat) (outcomes : List ExecOutcome) : WorkerRun :=
  match outcomes with
  | [] => ⟨[], [], RunStatus.noFiles, 0⟩
  | _ :: _ =>
      let total := outcomes.length
      let r := collectLoop total 0 (outcomes.map process_mrc_file)
      ⟨r.recorded, r.progress,
        if r.ok then RunStatus.completed (succeededCount r.recorded)
        else RunStatus.criticalError,
        min cores total⟩

/-- `PyCurvWidget._run_job_worker` (`src/jobs/pycurv_tab.py:238-315`):
an empty selection returns early (`'No VTP files selected'`); otherwise the
same loop runs, but `process_vtp_file` always returns a code, so the loop
never aborts. -/
def pycurvRunWorker (cores : Nat) (outcomes : List PyOutcome) : WorkerRun :=
  match outcomes with
  | [] => ⟨[], [], RunStatus.noFiles, 0⟩
  | _ :: _ =>
      let total := outcomes.length
      let r := collectLoop total 0 (outcomes.map (fun o => some (process_vtp_file o)))
      ⟨r.recorded, r.progress,
        if r.ok then RunStatus.completed (succeededCount r.recorded)
        else RunStatus.criticalError,
        min cores total⟩

/-- The return code an `ExecOutcome` records when it does record one. -/
def exitCode : ExecOutcome → Int
  | ExecOutcome.exit rc => rc
  | ExecOutcome.raiseOther => 0

/-- The progress value the claim attributes to the runner:
`round(100 * completed / total)` with true rounding. -/
def claimedProgress (completed total : Nat) : ℤ :=
  round ((100 * completed : ℚ) / total)

/-! ## The `is_running` guard -/

/-- The widget state the guard touches: the `is_running` flag, the submit
button, and counters of observable side effects (worker threads started,
config files written). -/
structure WidgetState where
  isRunning : Bool
  submitEnabled : Bool
  threadsStarted : Nat
  configWrites : Nat
  deriving Repr, DecidableEq

/-- `PyCurvWidget._run_job` (`src/jobs/pycurv_tab.py:225-236`): return at
once when a job is running; otherwise set the flag, disable the button and
start the worker thread. -/
def pycurvRunJob (s : WidgetState) : WidgetState :=
  if s.isRunning then s
  else { s with isRunning := true, submitEnabled := false,
                threadsStarted := s.threadsStarted + 1 }

/-- `DistanceOrientationWidget._run_job` (`src/jobs/distance_tab.py:152-219`):
return at once when a job is running; otherwise `_update_config` writes the
config file, then the script check and the archive check may each bail out,
and only then is the flag set and the worker thread started. -/
def distanceRunJob (s : WidgetState) (updateOk scriptFound archiveProceed : Bool) :
    WidgetState :=
  if s.isRunning then s
  else
    let s1 := { s with configWrites := s.configWrites + 1 }
    if updateOk = false then s1
    else if scriptFound = false then s1
    else if archiveProceed = false then s1
    else { s1 with isRunning := true, submitEnabled := false,
                   threadsStarted := s1.threadsStarted + 1 }

/-- `_job_cleanup` (`src/jobs/pycurv_tab.py:326-330`,
`src/jobs/distance_tab.py:329-332`): re-enable the button and clear the
flag. -/
def jobCleanup (s : WidgetState) : WidgetState :=
  { s with isRunning := false, submitEnabled := true }

/-- The worker's exit discipline: the body never touches `is_running`, and
both the normal return and the `except` path funnel through the `finally`
clause, which schedules `_job_cleanup`. -/
def runWorkerLifecycle (s : WidgetState) (bodyRaised : Bool) : WidgetState :=
  jobCleanup s

/-! ## Association-list and deep-merge lemmas -/

theorem lookupKey_setKey_self {α : Type} (d : List (String × α)) (k : String) (v : α) :
    lookupKey (setKey d k v) k = some v := by
  induction d with
  | nil => simp [setKey, lookupKey]
  | cons p rest ih =>
      obtain ⟨k1, w⟩ := p
      by_cases h : k1 = k
      · simp [setKey, h, lookupKey]
      · simp [setKey, h, lookupKey, ih]

theorem lookupKey_setKey_other {α : Type} (d : List (String × α)) (k key : String) (v : α)
    (h : k ≠ key) : lookupKey (setKey d k v) key = lookupKey d key := by
  induction d with
  | nil => simp [setKey, lookupKey, h]
  | cons p rest ih =>
      obtain ⟨k1, w⟩ := p
      by_cases h1 : k1 = k
      · subst h1
        simp [setKey, lookupKey, h]
      · simp [setKey, h1, lookupKey, ih]

theorem deepMerge_nil (d1 : List (String × Val)) : deepMerge d1 [] = d1 := by
  rw [deepMerge]

/-- One merge step always rewrites to `setKey` of the appropriate value. -/
theorem deepMerge_cons (d1 : List (String × Val)) (k : String) (v : Val)
    (rest : List (String × Val)) :
    deepMerge d1 ((k, v) :: rest) =
      deepMerge
        (match v, lookupKey d1 k with
          | Val.dict m2, some (Val.dict m1) => setKey d1 k (Val.dict (deepMerge m1 m2))
          | _, _ => setKey d1 k v) rest := by
  cases v with
  | prim s =>
      rw [deepMerge]
      intro m2 h
      cases h
  | arr l =>
      rw [deepMerge]
      intro m2 h
      cases h
  | dict m2 =>
      rw [deepMerge]
      cases hbase : lookupKey d1 k with
      | none => rfl
      | some w => cases w <;> rfl

/-- The merge step is a `setKey` of the plain update value whenever the two
sides are not both dicts. -/
theorem deepMerge_cons_of_not_both (d1 : List (String × Val)) (k : String) (v : Val)
    (rest : List (String × Val))
    (h : (∀ m2, v ≠ Val.dict m2) ∨ (∀ m1, lookupKey d1 k ≠ some (Val.dict m1))) :
    deepMerge d1 ((k, v) :: rest) = deepMerge (setKey d1 k v) rest := by
  rw [deepMerge_cons]
  cases v with
  | prim s => rfl
  | arr l => rfl
  | dict m2 =>
      cases hbase : lookupKey d1 k with
      | none => rfl
      | some w =>
          cases w with
          | prim s => rfl
          | arr l => rfl
          | dict m1 =>
              rcases h with h | h
              · exact absurd rfl (h m2)
              · exact absurd hbase (h m1)

/-- The merge step recurses when both sides hold a dict. -/
theorem deepMerge_cons_of_dict (d1 : List (String × Val)) (k : String)
    (m1 m2 : List (String × Val)) (rest : List (String × Val))
    (h : lookupKey d1 k = some (Val.dict m1)) :
    deepMerge d1 ((k, Val.dict m2) :: rest) =
      deepMerge (setKey d1 k (Val.dict (deepMerge m1 m2))) rest := by
  rw [deepMerge_cons, h]

/-- Whatever the branch, one merge step is a `setKey` at the stepped key. -/
theorem deepMerge_cons_exists (d1 : List (String × Val)) (k : String) (v : Val)
    (rest : List (String × Val)) :
    ∃ w : Val, deepMerge d1 ((k, v) :: rest) = deepMerge (setKey d1 k w) rest := by
  cases v with
  | prim s => exact ⟨Val.prim s, deepMerge_cons_of_not_both _ _ _ _ (Or.inl (by intro m2 h; cases h))⟩
  | arr l => exact ⟨Val.arr l, deepMerge_cons_of_not_both _ _ _ _ (Or.inl (by intro m2 h; cases h))⟩
  | dict m2 =>
      cases hbase : lookupKey d1 k with
      | none =>
          exact ⟨Val.dict m2,
            deepMerge_cons_of_not_both _ _ _ _ (Or.inr (by intro m1 h; rw [hbase] at h; cases h))⟩
      | some w =>
          cases w with
          | prim s =>
              refine ⟨Val.dict m2, deepMerge_cons_of_not_both _ _ _ _ (Or.inr ?_)⟩
              intro m1 h
              rw [hbase] at h
              cases h
          | arr l =>
              refine ⟨Val.dict m2, deepMerge_cons_of_not_both _ _ _ _ (Or.inr ?_)⟩
              intro m1 h
              rw [hbase] at h
              cases h
          | dict m1 =>
              exact ⟨Val.dict (deepMerge m1 m2), deepMerge_cons_of_dict _ _ _ _ _ hbase⟩

/-- Keys not mentioned by the update are untouched by one whole merge pass. -/
theorem deepMerge_lookup_of_not_mem (updates : List (String × Val)) :
    ∀ (base : List (String × Val)) (key : String), lookupKey updates key = none →
      lookupKey (deepMerge base updates) key = lookupKey base key := by
  induction updates with
  | nil => intro base key _; rw [deepMerge_nil]
  | cons p rest ih =>
      intro base key hkey
      obtain ⟨k, v⟩ := p
      have hne : k ≠ key := by
        intro h
        simp [lookupKey, h] at hkey
      have hrest : lookupKey rest key = none := by
        simpa [lookupKey, hne] using hkey
      rw [deepMerge_cons]
      cases v with
      | prim s =>
          rw [ih _ _ hrest, lookupKey_setKey_other _ _ _ _ hne]
      | arr l =>
          rw [ih _ _ hrest, lookupKey_setKey_other _ _ _ _ hne]
      | dict m2 =>
          cases hbase : lookupKey base k with
          | none =>
              rw [ih _ _ hrest, lookupKey_setKey_other _ _ _ _ hne]
          | some w =>
              cases w with
              | prim s => rw [ih _ _ hrest, lookupKey_setKey_other _ _ _ _ hne]
              | arr l => rw [ih _ _ hrest, lookupKey_setKey_other _ _ _ _ hne]
              | dict m1 => rw [ih _ _ hrest, lookupKey_setKey_other _ _ _ _ hne]

theorem lookupKey_eq_none_iff {α : Type} (d : List (String × α)) (key : String) :
    lookupKey d key = none ↔ key ∉ d.map Prod.fst := by
  induction d with
  | nil => simp [lookupKey]
  | cons p rest ih =>
      obtain ⟨k, v⟩ := p
      by_cases h : k = key
      · simp [lookupKey, h]
      · simp only [lookupKey, if_neg h, List.map_cons, List.mem_cons, ih]
        constructor
        · intro hn hor
          rcases hor with hor | hor
          · exact h hor.symm
          · exact hn hor
        · intro hn
          exact fun hmem => hn (Or.inr hmem)

/-- A key of the update whose value is not merged dict-into-dict comes out of
the merge holding exactly the update's value (replacement for scalars and
lists, addition for keys absent from the base). -/
theorem deepMerge_lookup_replace (updates : List (String × Val)) :
    ∀ (base : List (String × Val)) (key : String) (v : Val),
      (updates.map Prod.fst).Nodup → (key, v) ∈ updates →
      ((∀ m2, v ≠ Val.dict m2) ∨ (∀ m1, lookupKey base key ≠ some (Val.dict m1))) →
      lookupKey (deepMerge base updates) key = some v := by
  induction updates with
  | nil => intro base key v _ hmem _; cases hmem
  | cons p rest ih =>
      intro base key v hnd hmem hcond
      obtain ⟨k, w⟩ := p
      rw [List.map_cons, List.nodup_cons] at hnd
      obtain ⟨hknotin, hndrest⟩ := hnd
      rcases List.mem_cons.mp hmem with heq | hmemrest
      · obtain ⟨hk, hw⟩ := Prod.ext_iff.mp heq
        subst hk
        subst hw
        have hrestnone : lookupKey rest key = none :=
          (lookupKey_eq_none_iff rest key).mpr hknotin
        rw [deepMerge_cons_of_not_both base key v rest hcond,
          deepMerge_lookup_of_not_mem rest _ _ hrestnone,
          lookupKey_setKey_self]
      · have hkey_in : key ∈ rest.map Prod.fst :=
          List.mem_map.mpr ⟨(key, v), hmemrest, rfl⟩
        have hkne : k ≠ key := by
          intro h
          subst h
          exact hknotin hkey_in
        obtain ⟨w2, hstep⟩ := deepMerge_cons_exists base k w rest
        rw [hstep]
        refine ih _ _ _ hndrest hmemrest ?_
        rcases hcond with hcond | hcond
        · exact Or.inl hcond
        · refine Or.inr ?_
          intro m1 h
          rw [lookupKey_setKey_other _ _ _ _ hkne] at h
          exact hcond m1 h

/-- A key whose value is a dict on both sides comes out holding the
recursive merge of the two dicts. -/
theorem deepMerge_lookup_nested (updates : List (String × Val)) :
    ∀ (base : List (String × Val)) (key : String) (m1 m2 : List (String × Val)),
      (updates.map Prod.fst).Nodup → (key, Val.dict m2) ∈ updates →
      lookupKey base key = some (Val.dict m1) →
      lookupKey (deepMerge base updates) key = some (Val.dict (deepMerge m1 m2)) := by
  induction updates with
  | nil => intro base key m1 m2 _ hmem _; cases hmem
  | cons p rest ih =>
      intro base key m1 m2 hnd hmem hbase
      obtain ⟨k, w⟩ := p
      rw [List.map_cons, List.nodup_cons] at hnd
      obtain ⟨hknotin, hndrest⟩ := hnd
      rcases List.mem_cons.mp hmem with heq | hmemrest
      · obtain ⟨hk, hw⟩ := Prod.ext_iff.mp heq
        subst hk
        subst hw
        have hrestnone : lookupKey rest key = none :=
          (lookupKey_eq_none_iff rest key).mpr hknotin
        rw [deepMerge_cons_of_dict base key m1 m2 rest hbase,
          deepMerge_lookup_of_not_mem rest _ _ hrestnone,
          lookupKey_setKey_self]
      · have hkey_in : key ∈ rest.map Prod.fst :=
          List.mem_map.mpr ⟨(key, Val.dict m2), hmemrest, rfl⟩
        have hkne : k ≠ key := by
          intro h
          subst h
          exact hknotin hkey_in
        obtain ⟨w2, hstep⟩ := deepMerge_cons_exists base k w rest
        rw [hstep]
        refine ih _ _ _ _ hndrest hmemrest ?_
        rw [lookupKey_setKey_other _ _ _ _ hkne]
        exact hbase

/-! ## Binary64 progress-arithmetic lemmas -/

theorem intLog2F_bracket :
    ∀ fuel n, 1 ≤ n → n ≤ fuel → 2 ^ intLog2F fuel n ≤ n ∧ n < 2 ^ (intLog2F fuel n + 1) := by
  intro fuel
  induction fuel with
  | zero => intro n h1 h2; omega
  | succ fuel ih =>
      intro n h1 h2
      by_cases hn : n ≤ 1
      · have : n = 1 := by omega
        subst this
        simp [intLog2F]
      · have h2' : n / 2 ≤ fuel := by omega
        have h1' : 1 ≤ n / 2 := by omega
        obtain ⟨hlo, hhi⟩ := ih (n / 2) h1' h2'
        rw [intLog2F, if_neg hn]
        constructor
        · have hp : 2 ^ (intLog2F fuel (n / 2) + 1) = 2 * 2 ^ intLog2F fuel (n / 2) := by
            rw [pow_succ]; ring
          rw [hp]
          omega
        · have hp : 2 ^ (intLog2F fuel (n / 2) + 1 + 1) = 2 * 2 ^ (intLog2F fuel (n / 2) + 1) := by
            rw [pow_succ _ (intLog2F fuel (n / 2) + 1)]; ring
          rw [hp]
          omega

theorem natLog2_bracket (n : Nat) (h : 1 ≤ n) :
    2 ^ natLog2 n ≤ n ∧ n < 2 ^ (natLog2 n + 1) :=
  intLog2F_bracket n n h le_rfl

theorem rneDiv_ge (a b : Nat) : a / b ≤ rneDiv a b := by
  rw [rneDiv]
  split
  · exact le_rfl
  · split
    · omega
    · split <;> omega

theorem rneDiv_le (a b : Nat) : rneDiv a b ≤ a / b + 1 := by
  rw [rneDiv]
  split
  · omega
  · split
    · omega
    · split <;> omega

theorem rneDiv_exact (q b : Nat) (hb : 0 < b) : rneDiv (q * b) b = q := by
  rw [rneDiv]
  have hd : q * b / b = q := Nat.mul_div_cancel q hb
  have hm : q * b % b = 0 := Nat.mul_mod_left q b
  rw [hd, hm]
  simp [hb]

theorem natDiv_cross_mono (a x b y : Nat) (hx : 0 < x) (hy : 0 < y)
    (h : a * y ≤ b * x) : a / x ≤ b / y := by
  rw [Nat.le_div_iff_mul_le hy]
  have h1 : a / x * x ≤ a := Nat.div_mul_le_self a x
  have h2 : a / x * y * x = a / x * x * y := by ring
  have h3 : a / x * x * y ≤ a * y := Nat.mul_le_mul_right y h1
  have h4 : a / x * y * x ≤ b * x := by omega
  exact Nat.le_of_mul_le_mul_right h4 hx

theorem rneDiv_eq_down (a b : Nat) (h : 2 * (a % b) < b) : rneDiv a b = a / b := by
  rw [rneDiv]
  rw [if_pos (by omega : 2 * (a % b) < b)]

theorem rneDiv_eq_up (a b : Nat) (h : b < 2 * (a % b)) : rneDiv a b = a / b + 1 := by
  rw [rneDiv]
  rw [if_neg (by omega : ¬ 2 * (a % b) < b), if_pos h]

theorem rneDiv_tie_even (a b : Nat) (h : 2 * (a % b) = b) (he : a / b % 2 = 0) :
    rneDiv a b = a / b := by
  rw [rneDiv]
  rw [if_neg (by omega : ¬ 2 * (a % b) < b), if_neg (by omega : ¬ b < 2 * (a % b)), if_pos he]

theorem rneDiv_tie_odd (a b : Nat) (h : 2 * (a % b) = b) (ho : ¬ a / b % 2 = 0) :
    rneDiv a b = a / b + 1 := by
  rw [rneDiv]
  rw [if_neg (by omega : ¬ 2 * (a % b) < b), if_neg (by omega : ¬ b < 2 * (a % b)), if_neg ho]

theorem rneDiv_cross_mono (a1 b1 a2 b2 : Nat) (hb1 : 0 < b1) (hb2 : 0 < b2)
    (h : a1 * b2 ≤ a2 * b1) : rneDiv a1 b1 ≤ rneDiv a2 b2 := by
  have hq : a1 / b1 ≤ a2 / b2 := natDiv_cross_mono a1 b1 a2 b2 hb1 hb2 h
  rcases Nat.lt_or_ge (a1 / b1) (a2 / b2) with hlt | hge
  · calc rneDiv a1 b1 ≤ a1 / b1 + 1 := rneDiv_le a1 b1
      _ ≤ a2 / b2 := hlt
      _ ≤ rneDiv a2 b2 := rneDiv_ge a2 b2
  · have hqe : a1 / b1 = a2 / b2 := le_antisymm hq hge
    have he1 : b1 * (a1 / b1) + a1 % b1 = a1 := Nat.div_add_mod a1 b1
    have he2 : b2 * (a2 / b2) + a2 % b2 = a2 := Nat.div_add_mod a2 b2
    have hr : a1 % b1 * b2 ≤ a2 % b2 * b1 := by
      have hexp2 :
          b1 * b2 * (a1 / b1) + a1 % b1 * b2 ≤ b1 * b2 * (a1 / b1) + a2 % b2 * b1 := by
        calc b1 * b2 * (a1 / b1) + a1 % b1 * b2
            = (b1 * (a1 / b1) + a1 % b1) * b2 := by ring
          _ = a1 * b2 := by rw [he1]
          _ ≤ a2 * b1 := h
          _ = (b2 * (a2 / b2) + a2 % b2) * b1 := by rw [he2]
          _ = b1 * b2 * (a2 / b2) + a2 % b2 * b1 := by ring
          _ = b1 * b2 * (a1 / b1) + a2 % b2 * b1 := by rw [hqe]
      omega
    by_cases hc1 : 2 * (a1 % b1) < b1
    · rw [rneDiv_eq_down a1 b1 hc1, hqe]
      exact rneDiv_ge a2 b2
    · by_cases hc2 : b1 < 2 * (a1 % b1)
      · -- left rounds up, so the right remainder is also above the half
        have hr2big : b2 < 2 * (a2 % b2) := by
          have h1 : b1 * b2 < 2 * (a1 % b1) * b2 :=
            Nat.mul_lt_mul_of_lt_of_le hc2 le_rfl hb2
          have h3 : b2 * b1 < 2 * (a2 % b2) * b1 := by
            calc b2 * b1 = b1 * b2 := by ring
              _ < 2 * (a1 % b1) * b2 := h1
              _ = 2 * (a1 % b1 * b2) := by ring
              _ ≤ 2 * (a2 % b2 * b1) := by omega
              _ = 2 * (a2 % b2) * b1 := by ring
          exact Nat.lt_of_mul_lt_mul_right h3
        rw [rneDiv_eq_up a1 b1 hc2, rneDiv_eq_up a2 b2 hr2big, hqe]
      · -- tie on the left
        have htie : 2 * (a1 % b1) = b1 := by omega
        by_cases hpar : a1 / b1 % 2 = 0
        · rw [rneDiv_tie_even a1 b1 htie hpar, hqe]
          exact rneDiv_ge a2 b2
        · rw [rneDiv_tie_odd a1 b1 htie hpar]
          have hr2ge : b2 ≤ 2 * (a2 % b2) := by
            have h3 : b2 * b1 ≤ 2 * (a2 % b2) * b1 := by
              calc b2 * b1 = b1 * b2 := by ring
                _ = 2 * (a1 % b1) * b2 := by rw [htie]
                _ = 2 * (a1 % b1 * b2) := by ring
                _ ≤ 2 * (a2 % b2 * b1) := by omega
                _ = 2 * (a2 % b2) * b1 := by ring
            exact Nat.le_of_mul_le_mul_right h3 hb1
          by_cases hc3 : b2 < 2 * (a2 % b2)
          · rw [rneDiv_eq_up a2 b2 hc3, hqe]
          · have htie2 : 2 * (a2 % b2) = b2 := by omega
            have hpar2 : ¬ a2 / b2 % 2 = 0 := by rw [← hqe]; exact hpar
            rw [rneDiv_tie_odd a2 b2 htie2 hpar2, hqe]

theorem natLog2_le_natLog2 (k t : Nat) (hk : 1 ≤ k) (hkt : k ≤ t) :
    natLog2 k ≤ natLog2 t := by
  obtain ⟨hk1, _⟩ := natLog2_bracket k hk
  obtain ⟨_, ht2⟩ := natLog2_bracket t (by omega)
  have h : 2 ^ natLog2 k < 2 ^ (natLog2 t + 1) := by omega
  have := (Nat.pow_lt_pow_iff_right (by omega : 1 < 2)).mp h
  omega

theorem flShift_spec (k t : Nat) (hk : 1 ≤ k) (hkt : k ≤ t) :
    t * 2 ^ 52 ≤ k * 2 ^ flShift k t ∧ k * 2 ^ flShift k t < t * 2 ^ 53 := by
  have ht : 1 ≤ t := by omega
  obtain ⟨hk1, hk2⟩ := natLog2_bracket k hk
  obtain ⟨ht1, ht2⟩ := natLog2_bracket t ht
  have hll : natLog2 k ≤ natLog2 t := natLog2_le_natLog2 k t hk hkt
  have hs0 : 52 + natLog2 t - natLog2 k = 52 + (natLog2 t - natLog2 k) := by omega
  set lk := natLog2 k
  set lt := natLog2 t
  -- the upper bound holds at s0 unconditionally
  have hupper : k * 2 ^ (52 + natLog2 t - natLog2 k) < t * 2 ^ 53 := by
    rw [hs0]
    have e1 : (2 : Nat) ^ (52 + (lt - lk)) = 2 ^ 52 * 2 ^ (lt - lk) := pow_add 2 52 (lt - lk)
    have e2 : (2 : Nat) ^ (lk + 1) * 2 ^ (lt - lk) = 2 * 2 ^ lt := by
      rw [← pow_add]
      have : lk + 1 + (lt - lk) = lt + 1 := by omega
      rw [this, pow_succ]
      ring
    calc k * 2 ^ (52 + (lt - lk)) = k * (2 ^ 52 * 2 ^ (lt - lk)) := by rw [e1]
      _ = k * 2 ^ (lt - lk) * 2 ^ 52 := by ring
      _ < 2 ^ (lk + 1) * 2 ^ (lt - lk) * 2 ^ 52 := by
          have hklt : k * 2 ^ (lt - lk) < 2 ^ (lk + 1) * 2 ^ (lt - lk) :=
            Nat.mul_lt_mul_of_lt_of_le hk2 le_rfl (Nat.pos_pow_of_pos _ (by omega))
          exact Nat.mul_lt_mul_of_lt_of_le hklt le_rfl (by positivity)
      _ = 2 * 2 ^ lt * 2 ^ 52 := by rw [e2]
      _ = 2 ^ lt * 2 ^ 53 := by rw [pow_succ]; ring
      _ ≤ t * 2 ^ 53 := Nat.mul_le_mul_right _ ht1
  rw [flShift]
  by_cases hlo : t * 2 ^ 52 ≤ k * 2 ^ (52 + natLog2 t - natLog2 k)
  · rw [if_pos hlo, if_pos hupper]
    exact ⟨hlo, hupper⟩
  · rw [if_neg hlo]
    push_neg at hlo
    constructor
    · -- lower bound at s0 + 1
      rw [hs0]
      refine le_of_lt ?_
      have e1 : (2 : Nat) ^ (52 + (lt - lk) + 1) = 2 ^ 52 * 2 ^ (lt - lk) * 2 := by
        rw [pow_succ, pow_add]
      have e2 : (2 : Nat) ^ lk * (2 ^ (lt - lk) * 2) = 2 ^ (lt + 1) := by
        rw [← pow_succ, ← pow_add]
        congr 1
        omega
      calc t * 2 ^ 52 < 2 ^ (lt + 1) * 2 ^ 52 := by
            exact Nat.mul_lt_mul_of_lt_of_le ht2 le_rfl (by positivity)
        _ = 2 ^ lk * (2 ^ (lt - lk) * 2) * 2 ^ 52 := by rw [e2]
        _ ≤ k * (2 ^ (lt - lk) * 2) * 2 ^ 52 := by
            have := Nat.mul_le_mul_right ((2 ^ (lt - lk) * 2) * 2 ^ 52) hk1
            calc 2 ^ lk * (2 ^ (lt - lk) * 2) * 2 ^ 52
                = 2 ^ lk * ((2 ^ (lt - lk) * 2) * 2 ^ 52) := by ring
              _ ≤ k * ((2 ^ (lt - lk) * 2) * 2 ^ 52) := this
              _ = k * (2 ^ (lt - lk) * 2) * 2 ^ 52 := by ring
        _ = k * (2 ^ 52 * 2 ^ (lt - lk) * 2) := by ring
        _ = k * 2 ^ (52 + (lt - lk) + 1) := by rw [e1]
    · -- upper bound at s0 + 1: doubles the failed lower test
      have e3 : k * 2 ^ (52 + natLog2 t - natLog2 k + 1) =
          2 * (k * 2 ^ (52 + natLog2 t - natLog2 k)) := by
        rw [pow_succ]
        ring
      have e4 : t * 2 ^ 53 = 2 * (t * 2 ^ 52) := by
        rw [pow_succ]
        ring
      omega

theorem flShift_ge52 (k t : Nat) (hk : 1 ≤ k) (hkt : k ≤ t) : 52 ≤ flShift k t := by
  obtain ⟨hlo, _⟩ := flShift_spec k t hk hkt
  have h1 : k * 2 ^ 52 ≤ k * 2 ^ flShift k t := by
    calc k * 2 ^ 52 ≤ t * 2 ^ 52 := Nat.mul_le_mul_right _ hkt
      _ ≤ k * 2 ^ flShift k t := hlo
  have h2 : (2 : Nat) ^ 52 ≤ 2 ^ flShift k t := Nat.le_of_mul_le_mul_left h1 (by omega)
  exact (Nat.pow_le_pow_iff_right (by omega : 1 < 2)).mp h2

theorem flShift_anti (k1 k2 t : Nat) (hk1 : 1 ≤ k1) (hk : k1 ≤ k2) (hkt : k2 ≤ t) :
    flShift k2 t ≤ flShift k1 t := by
  by_contra hcon
  push_neg at hcon
  obtain ⟨hlo1, _⟩ := flShift_spec k1 t hk1 (by omega)
  obtain ⟨_, hhi2⟩ := flShift_spec k2 t (by omega) hkt
  have h1 : k1 * 2 ^ (flShift k1 t + 1) ≤ k2 * 2 ^ flShift k2 t := by
    have hp : (2 : Nat) ^ (flShift k1 t + 1) ≤ 2 ^ flShift k2 t :=
      Nat.pow_le_pow_right (by omega) (by omega)
    exact Nat.mul_le_mul hk hp
  have h2 : k1 * 2 ^ (flShift k1 t + 1) = 2 * (k1 * 2 ^ flShift k1 t) := by
    rw [pow_succ]
    ring
  have h3 : t * 2 ^ 53 = 2 * (t * 2 ^ 52) := by
    rw [pow_succ]
    ring
  omega

theorem flDivM_bounds (k t : Nat) (hk : 1 ≤ k) (hkt : k ≤ t) :
    2 ^ 52 ≤ flDivM k t ∧ flDivM k t ≤ 2 ^ 53 := by
  have ht : 0 < t := by omega
  obtain ⟨hlo, hhi⟩ := flShift_spec k t hk hkt
  constructor
  · have hdiv : 2 ^ 52 ≤ k * 2 ^ flShift k t / t :=
      (Nat.le_div_iff_mul_le ht).mpr (by calc (2:Nat) ^ 52 * t = t * 2 ^ 52 := by ring
        _ ≤ k * 2 ^ flShift k t := hlo)
    exact le_trans hdiv (rneDiv_ge _ _)
  · have hdiv : k * 2 ^ flShift k t / t < 2 ^ 53 := by
      rw [Nat.div_lt_iff_lt_mul ht]
      calc k * 2 ^ flShift k t < t * 2 ^ 53 := hhi
        _ = 2 ^ 53 * t := by ring
    calc flDivM k t ≤ k * 2 ^ flShift k t / t + 1 := rneDiv_le _ _
      _ ≤ 2 ^ 53 := by omega

theorem flD_range (v : Nat) (hlo : 2 ^ 52 * 100 ≤ v) (hhi : v ≤ 2 ^ 53 * 100) :
    2 ^ (52 + flD v) ≤ v ∧ v < 2 ^ (53 + flD v) := by
  rw [flD]
  by_cases h : v < 2 ^ 59
  · rw [if_pos h]
    constructor
    · calc (2:Nat) ^ (52 + 6) = 2 ^ 52 * 64 := by norm_num
        _ ≤ 2 ^ 52 * 100 := by
            exact Nat.mul_le_mul_left _ (by omega)
        _ ≤ v := hlo
    · simpa using h
  · rw [if_neg h]
    constructor
    · simp only [show (52 + 7) = 59 from rfl]
      omega
    · calc v ≤ 2 ^ 53 * 100 := hhi
        _ < 2 ^ 53 * 128 := by
            have : (0:Nat) < 2 ^ 53 := by positivity
            omega
        _ = 2 ^ (53 + 7) := by norm_num

theorem flM2_bounds (v : Nat) (hlo : 2 ^ (52 + flD v) ≤ v) (hhi : v < 2 ^ (53 + flD v)) :
    2 ^ 52 ≤ flM2 v ∧ flM2 v ≤ 2 ^ 53 := by
  have hd : 0 < 2 ^ flD v := Nat.pos_pow_of_pos _ (by omega)
  constructor
  · have hdiv : 2 ^ 52 ≤ v / 2 ^ flD v := by
      rw [Nat.le_div_iff_mul_le hd]
      calc (2:Nat) ^ 52 * 2 ^ flD v = 2 ^ (52 + flD v) := (pow_add 2 52 (flD v)).symm
        _ ≤ v := hlo
    exact le_trans hdiv (rneDiv_ge _ _)
  · have hdiv : v / 2 ^ flD v < 2 ^ 53 := by
      rw [Nat.div_lt_iff_lt_mul hd]
      calc v < 2 ^ (53 + flD v) := hhi
        _ = 2 ^ 53 * 2 ^ flD v := pow_add 2 53 (flD v)
    calc flM2 v ≤ v / 2 ^ flD v + 1 := rneDiv_le _ _
      _ ≤ 2 ^ 53 := by omega

theorem flDivM_cross_mono (k1 k2 t : Nat) (hk1 : 1 ≤ k1) (hk : k1 ≤ k2) (hkt : k2 ≤ t) :
    flDivM k1 t * 2 ^ flShift k2 t ≤ flDivM k2 t * 2 ^ flShift k1 t := by
  have hs : flShift k2 t ≤ flShift k1 t := flShift_anti k1 k2 t hk1 hk hkt
  rcases Nat.eq_or_lt_of_le hs with hse | hslt
  · -- same shift: compare significands directly
    rw [hse]
    refine Nat.mul_le_mul_right _ ?_
    refine rneDiv_cross_mono _ t _ t (by omega) (by omega) ?_
    rw [hse]
    exact Nat.mul_le_mul_right _ (Nat.mul_le_mul_right _ hk)
  · -- strictly smaller shift: different binades, compare across the boundary
    obtain ⟨_, hup1⟩ := flDivM_bounds k1 t hk1 (by omega)
    obtain ⟨hlo2, _⟩ := flDivM_bounds k2 t (by omega) hkt
    calc flDivM k1 t * 2 ^ flShift k2 t ≤ 2 ^ 53 * 2 ^ flShift k2 t :=
          Nat.mul_le_mul_right _ hup1
      _ = 2 ^ (53 + flShift k2 t) := (pow_add 2 53 _).symm
      _ ≤ 2 ^ (52 + flShift k1 t) := Nat.pow_le_pow_right (by omega) (by omega)
      _ = 2 ^ 52 * 2 ^ flShift k1 t := pow_add 2 52 _
      _ ≤ flDivM k2 t * 2 ^ flShift k1 t := Nat.mul_le_mul_right _ hlo2

theorem flD_le7 (v : Nat) : flD v ≤ 7 := by
  rw [flD]
  split <;> omega

theorem flStep2_mono (v1 v2 s1 s2 : Nat)
    (hr1 : 2 ^ (52 + flD v1) ≤ v1 ∧ v1 < 2 ^ (53 + flD v1))
    (hr2 : 2 ^ (52 + flD v2) ≤ v2 ∧ v2 < 2 ^ (53 + flD v2))
    (hd1 : flD v1 ≤ s1) (hd2 : flD v2 ≤ s2)
    (hval : v1 * 2 ^ s2 ≤ v2 * 2 ^ s1) :
    flM2 v1 / 2 ^ (s1 - flD v1) ≤ flM2 v2 / 2 ^ (s2 - flD v2) := by
  have hu : s2 - flD v2 ≤ s1 - flD v1 := by
    have h1 : 2 ^ (52 + flD v1) * 2 ^ s2 ≤ v1 * 2 ^ s2 :=
      Nat.mul_le_mul_right _ hr1.1
    have h2 : v2 * 2 ^ s1 < 2 ^ (53 + flD v2) * 2 ^ s1 :=
      Nat.mul_lt_mul_of_lt_of_le hr2.2 le_rfl (by positivity)
    have h3 : (2:Nat) ^ (52 + flD v1 + s2) < 2 ^ (53 + flD v2 + s1) := by
      have e1 : (2:Nat) ^ (52 + flD v1 + s2) = 2 ^ (52 + flD v1) * 2 ^ s2 :=
        pow_add 2 (52 + flD v1) s2
      have e2 : (2:Nat) ^ (53 + flD v2 + s1) = 2 ^ (53 + flD v2) * 2 ^ s1 :=
        pow_add 2 (53 + flD v2) s1
      rw [e1, e2]
      calc 2 ^ (52 + flD v1) * 2 ^ s2 ≤ v1 * 2 ^ s2 := h1
        _ ≤ v2 * 2 ^ s1 := hval
        _ < 2 ^ (53 + flD v2) * 2 ^ s1 := h2
    have h4 : 52 + flD v1 + s2 < 53 + flD v2 + s1 :=
      (Nat.pow_lt_pow_iff_right (by omega : 1 < 2)).mp h3
    omega
  refine natDiv_cross_mono _ _ _ _ (by positivity) (by positivity) ?_
  rcases Nat.eq_or_lt_of_le hu with hue | hult
  · -- equal ulp exponents
    have hm : flM2 v1 ≤ flM2 v2 := by
      refine rneDiv_cross_mono v1 (2 ^ flD v1) v2 (2 ^ flD v2) (by positivity) (by positivity) ?_
      have hcross : v1 * 2 ^ flD v2 * 2 ^ (s2 - flD v2) ≤ v2 * 2 ^ flD v1 * 2 ^ (s2 - flD v2) := by
        have e1 : v1 * 2 ^ flD v2 * 2 ^ (s2 - flD v2) = v1 * 2 ^ s2 := by
          rw [mul_assoc, ← pow_add]
          congr 2
          omega
        have e2 : v2 * 2 ^ flD v1 * 2 ^ (s2 - flD v2) = v2 * 2 ^ s1 := by
          rw [mul_assoc, ← pow_add]
          congr 2
          omega
        rw [e1, e2]
        exact hval
      exact Nat.le_of_mul_le_mul_right hcross (by positivity)
    rw [← hue]
    exact Nat.mul_le_mul_right _ hm
  · -- strictly smaller ulp exponent on the right
    obtain ⟨_, hm1u⟩ := flM2_bounds v1 hr1.1 hr1.2
    obtain ⟨hm2l, _⟩ := flM2_bounds v2 hr2.1 hr2.2
    calc flM2 v1 * 2 ^ (s2 - flD v2) ≤ 2 ^ 53 * 2 ^ (s2 - flD v2) :=
          Nat.mul_le_mul_right _ hm1u
      _ = 2 ^ (53 + (s2 - flD v2)) := (pow_add 2 53 _).symm
      _ ≤ 2 ^ (52 + (s1 - flD v1)) := Nat.pow_le_pow_right (by omega) (by omega)
      _ = 2 ^ 52 * 2 ^ (s1 - flD v1) := pow_add 2 52 _
      _ ≤ flM2 v2 * 2 ^ (s1 - flD v1) := Nat.mul_le_mul_right _ hm2l

theorem pyProgress_mono (k1 k2 t : Nat) (hk : k1 ≤ k2) (hkt : k2 ≤ t) :
    pyProgress k1 t ≤ pyProgress k2 t := by
  by_cases h1 : k1 = 0 ∨ t = 0
  · have : pyProgress k1 t = 0 := by
      rw [pyProgress]
      rcases h1 with h | h <;> simp [h]
    rw [this]
    exact Nat.zero_le _
  · push_neg at h1
    have hk1 : 1 ≤ k1 := by omega
    have ht : 1 ≤ t := by omega
    have h2 : ¬ (k2 = 0 ∨ t = 0) := by omega
    rw [pyProgress, pyProgress, if_neg (by omega : ¬ (k1 = 0 ∨ t = 0)), if_neg h2]
    have hb1 := flDivM_bounds k1 t hk1 (by omega)
    have hb2 := flDivM_bounds k2 t (by omega) hkt
    have hv1 : 2 ^ 52 * 100 ≤ flDivM k1 t * 100 ∧ flDivM k1 t * 100 ≤ 2 ^ 53 * 100 :=
      ⟨Nat.mul_le_mul_right _ hb1.1, Nat.mul_le_mul_right _ hb1.2⟩
    have hv2 : 2 ^ 52 * 100 ≤ flDivM k2 t * 100 ∧ flDivM k2 t * 100 ≤ 2 ^ 53 * 100 :=
      ⟨Nat.mul_le_mul_right _ hb2.1, Nat.mul_le_mul_right _ hb2.2⟩
    refine flStep2_mono _ _ _ _ (flD_range _ hv1.1 hv1.2) (flD_range _ hv2.1 hv2.2)
      (le_trans (flD_le7 _) (le_trans (by omega) (flShift_ge52 k1 t hk1 (by omega))))
      (le_trans (flD_le7 _) (le_trans (by omega) (flShift_ge52 k2 t (by omega) hkt))) ?_
    have hcm := flDivM_cross_mono k1 k2 t hk1 hk hkt
    calc flDivM k1 t * 100 * 2 ^ flShift k2 t
        = flDivM k1 t * 2 ^ flShift k2 t * 100 := by ring
      _ ≤ flDivM k2 t * 2 ^ flShift k1 t * 100 := Nat.mul_le_mul_right _ hcm
      _ = flDivM k2 t * 100 * 2 ^ flShift k1 t := by ring

theorem pyProgress_self (t : Nat) (ht : 1 ≤ t) : pyProgress t t = 100 := by
  have hs : flShift t t = 52 := by
    have he : 52 + natLog2 t - natLog2 t = 52 := by omega
    rw [flShift, he, if_pos le_rfl, if_pos]
    have h0 : (0:Nat) < t := by omega
    have hp : (2:Nat) ^ 52 < 2 ^ 53 := by norm_num
    exact Nat.mul_lt_mul_of_le_of_lt le_rfl hp h0
  have hm : flDivM t t = 2 ^ 52 := by
    rw [flDivM, hs]
    have he : t * 2 ^ 52 = 2 ^ 52 * t := by ring
    rw [he]
    exact rneDiv_exact _ _ (by omega)
  rw [pyProgress, if_neg (by omega : ¬ (t = 0 ∨ t = 0)), hs, hm]
  decide

/-! ## Completion-loop lemmas -/

/-- Closed form of the completion loop when every item yields a return
code: everything is recorded, and the `i`-th progress report (counting the
`done` completions that preceded this tail) is
`pyProgress (done + i + 1) total`. -/
theorem collectLoop_map_some (total : Nat) (rcs : List Int) :
    ∀ done : Nat,
      collectLoop total done (rcs.map some) =
        ⟨rcs, (List.range rcs.length).map (fun i => pyProgress (done + i + 1) total), true⟩ := by
  induction rcs with
  | nil => intro done; rfl
  | cons rc rest ih =>
      intro done
      simp only [List.map_cons, collectLoop, ih (done + 1), List.length_cons,
        List.range_succ_eq_map, List.map_map, CollectResult.mk.injEq, List.cons.injEq]
      refine ⟨trivial, ⟨by norm_num, ?_⟩, trivial⟩
      refine List.map_congr_left ?_
      intro i _
      have h : done + 1 + i + 1 = done + (i + 1) + 1 := by omega
      simp [Function.comp, h]

/-- Every progress value the loop emits is at least the one reported at
the first completion of its tail (the counter bound keeps every completion
count within the item total). -/
theorem collectLoop_progress_lb (total : Nat) :
    ∀ (l : List (Option Int)) (done : Nat) (x : Nat),
      done + l.length ≤ total →
      x ∈ (collectLoop total done l).progress → pyProgress (done + 1) total ≤ x := by
  intro l
  induction l with
  | nil => intro done x _ hx; cases hx
  | cons o rest ih =>
      intro done x hbound hx
      cases o with
      | none => cases hx
      | some rc =>
          simp only [collectLoop, List.mem_cons] at hx
          rcases hx with hx | hx
          · exact hx.ge
          · cases rest with
            | nil => simp [collectLoop] at hx
            | cons o2 rest2 =>
                have hlen : done + 2 ≤ total := by
                  simp only [List.length_cons] at hbound
                  omega
                refine le_trans (pyProgress_mono (done + 1) (done + 2) total (by omega) hlen) ?_
                refine ih (done + 1) x ?_ hx
                simp only [List.length_cons] at hbound ⊢
                omega

/-- The progress reports are non-decreasing, aborted loop or not. -/
theorem collectLoop_progress_sorted (total : Nat) :
    ∀ (l : List (Option Int)) (done : Nat), done + l.length ≤ total →
      ((collectLoop total done l).progress).Sorted (· ≤ ·) := by
  intro l
  induction l with
  | nil => intro done _; simp [collectLoop]
  | cons o rest ih =>
      intro done hbound
      cases o with
      | none => simp [collectLoop]
      | some rc =>
          simp only [collectLoop]
          have hbr : done + 1 + rest.length ≤ total := by
            simp only [List.length_cons] at hbound
            omega
          refine List.sorted_cons.mpr ⟨?_, ih (done + 1) hbr⟩
          intro b hb
          cases rest with
          | nil => simp [collectLoop] at hb
          | cons o2 rest2 =>
              have hlen : done + 2 ≤ total := by
                simp only [List.length_cons] at hbound
                omega
              refine le_trans (pyProgress_mono (done + 1) (done + 2) total (by omega) hlen) ?_
              exact collectLoop_progress_lb total (o2 :: rest2) (done + 1) b hbr hb

/-- When the loop completes all items, the last progress report is 100
(`t / t` is exactly 1.0, and `1.0 * 100` exactly 100.0). -/
theorem collectLoop_map_some_last (total : Nat) (rcs : List Int) (done : Nat)
    (hne : rcs ≠ []) (htot : done + rcs.length = total) :
    ((collectLoop total done (rcs.map some)).progress).getLast? = some 100 := by
  rw [collectLoop_map_some total rcs done]
  obtain ⟨n, hn⟩ : ∃ n, rcs.length = n + 1 := by
    cases rcs with
    | nil => exact absurd rfl hne
    | cons a l => exact ⟨l.length, rfl⟩
  rw [hn, List.range_succ, List.map_append, List.map_cons, List.map_nil,
    List.getLast?_concat]
  have h1 : done + n + 1 = total := by omega
  rw [h1, pyProgress_self total (by omega)]

/-! # The claims -/

/-- **C4** (confirmed).  `deep_merge` of `ConfigYAMLPreserver.update`
recursively merges nested mappings key-by-key: (1) keys absent from the
update keep their base value (sections not touched stay equal); (2) a key
of the update whose value is not dict-merged-into-dict (scalars and lists,
and any key whose base value is not a dict) ends up holding exactly the
update's value — replacement when present in the base, addition when not;
(3) a key holding dicts on both sides ends up holding the recursive merge. -/
theorem claim_deep_merge_spec (base updates : List (String × Val))
    (hnd : (updates.map Prod.fst).Nodup) :
    (∀ key, lookupKey updates key = none →
        lookupKey (deepMerge base updates) key = lookupKey base key) ∧
    (∀ key v, (key, v) ∈ updates →
        ((∀ m2, v ≠ Val.dict m2) ∨ (∀ m1, lookupKey base key ≠ some (Val.dict m1))) →
        lookupKey (deepMerge base updates) key = some v) ∧
    (∀ key m1 m2, (key, Val.dict m2) ∈ updates →
        lookupKey base key = some (Val.dict m1) →
        lookupKey (deepMerge base updates) key = some (Val.dict (deepMerge m1 m2))) :=
  ⟨fun key h => deepMerge_lookup_of_not_mem updates base key h,
   fun key v hmem hcond => deepMerge_lookup_replace updates base key v hnd hmem hcond,
   fun key m1 m2 hmem hbase => deepMerge_lookup_nested updates base key m1 m2 hnd hmem hbase⟩

/-- Witness for C4: a config with a `curvature_measurements` section and a
`cores` scalar, merged with an update touching only the section's
`radius_hit`: `cores` is untouched and `min_component` survives inside the
merged section. -/
theorem claim_deep_merge_spec_witness :
    ([("curvature_measurements", Val.dict [("radius_hit", Val.prim "9")])].map
        (Prod.fst (α := String) (β := Val))).Nodup ∧
    lookupKey
        (deepMerge
          [("curvature_measurements",
              Val.dict [("radius_hit", Val.prim "8"), ("min_component", Val.prim "30")]),
            ("cores", Val.prim "4")]
          [("curvature_measurements", Val.dict [("radius_hit", Val.prim "9")])])
        "cores" = some (Val.prim "4") := by
  constructor
  · decide
  · exact
      (claim_deep_merge_spec
        [("curvature_measurements",
            Val.dict [("radius_hit", Val.prim "8"), ("min_component", Val.prim "30")]),
          ("cores", Val.prim "4")]
        [("curvature_measurements", Val.dict [("radius_hit", Val.prim "9")])]
        (by decide)).1 "cores" rfl

/-- **C5** (confirmed).  When a previously saved config file exists at the
target path and the write performed by `ConfigYAMLPreserver.save` fails,
the exception is re-raised and the previously saved contents are back at
the target path afterwards (rename-based backup-then-write with backup
restore). -/
theorem claim_save_restores_on_failure (fs : List (String × String)) (p content c : String)
    (hprev : lookupKey fs p = some c) (hbak : withSuffixBak p ≠ p) :
    (saveConfig fs p content false).raised = true ∧
    lookupKey (saveConfig fs p content false).fs p = some c := by
  have hbak2 : ¬ (p = withSuffixBak p) := fun h => hbak h.symm
  constructor
  · simp [saveConfig, hprev]
  · simp only [saveConfig, hprev, Option.isSome_some, if_true, if_false, Bool.false_eq_true,
      ite_true, ite_false]
    have hfs1 : lookupKey (renamePath fs p (withSuffixBak p)) (withSuffixBak p) = some c := by
      rw [renamePath, hprev, lookupKey_setKey_self]
    have hfail :
        lookupKey (setKey (renamePath fs p (withSuffixBak p)) p "") (withSuffixBak p) = some c := by
      rw [lookupKey_setKey_other _ _ _ _ hbak2, hfs1]
    rw [renamePath, hfail, lookupKey_setKey_self]

/-- Witness for C5: a concrete file system holding the document
`"cores: 4"` at `exp1_config.yml`; after a failed write the document is
still there and the failure was re-raised. -/
theorem claim_save_restores_on_failure_witness :
    lookupKey [("/w/exp1/exp1_config.yml", "cores: 4")] "/w/exp1/exp1_config.yml" =
        some "cores: 4" ∧
    (saveConfig [("/w/exp1/exp1_config.yml", "cores: 4")] "/w/exp1/exp1_config.yml"
        "cores: 9" false).raised = true ∧
    lookupKey
        (saveConfig [("/w/exp1/exp1_config.yml", "cores: 4")] "/w/exp1/exp1_config.yml"
          "cores: 9" false).fs "/w/exp1/exp1_config.yml" = some "cores: 4" := by
  refine ⟨rfl, ?_⟩
  have h :=
    claim_save_restores_on_failure [("/w/exp1/exp1_config.yml", "cores: 4")]
      "/w/exp1/exp1_config.yml" "cores: 9" "cores: 4" rfl (by decide)
  exact h

/-- **C1** (refuted as stated).  `_create_new_experiment` run over a work
directory whose experiment directory already contains
`exp1_config.yml`: no `AlreadyExistsError` is raised (the success dialog is
shown) and the existing config file is replaced by the template-derived
one — the claim's "raises and modifies no files" fails on this input. -/
theorem claim_create_new_cex :
    (createNewExperiment ⟨"/w", "exp1", "/data", "/w/template.yml", 4, []⟩
        [("/w/exp1/exp1_config.yml", [("exp_name", Val.prim "old_exp")]),
          ("/w/template.yml", [("cores", Val.prim "2")])]).2 = CreateResult.success ∧
    lookupKey
        (createNewExperiment ⟨"/w", "exp1", "/data", "/w/template.yml", 4, []⟩
          [("/w/exp1/exp1_config.yml", [("exp_name", Val.prim "old_exp")]),
            ("/w/template.yml", [("cores", Val.prim "2")])]).1
        "/w/exp1/exp1_config.yml" =
      some [("cores", Val.prim "4"), ("data_dir", Val.prim "/data"),
        ("work_dir", Val.prim "/w/exp1"), ("exp_name", Val.prim "exp1"),
        ("segmentation_values", Val.dict [])] ∧
    lookupKey
        ([("/w/exp1/exp1_config.yml", ([("exp_name", Val.prim "old_exp")] : ConfigDoc)),
          ("/w/template.yml", [("cores", Val.prim "2")])])
        "/w/exp1/exp1_config.yml" = some [("exp_name", Val.prim "old_exp")] ∧
    (([("cores", Val.prim "4"), ("data_dir", Val.prim "/data"),
        ("work_dir", Val.prim "/w/exp1"), ("exp_name", Val.prim "exp1"),
        ("segmentation_values", Val.dict [])] : ConfigDoc) =
      [("exp_name", Val.prim "old_exp")] → False) := by
  refine ⟨rfl, rfl, rfl, ?_⟩
  intro h
  have hlen := congrArg List.length h
  simp at hlen

/-- **C1** (amended).  When every required field is set and the template
file is readable, `_create_new_experiment` reports success — even when the
experiment directory already contains a config file; the experiment's
config path receives the template-derived config (overwriting any previous
one), no other path changes, and the derived config carries the current
session's `data_dir`, `work_dir`, `exp_name` and `cores`. -/
theorem claim_create_new_behavior (st : ManagerState) (fs : List (String × ConfigDoc))
    (tmpl : ConfigDoc)
    (h1 : st.workDir ≠ "") (h2 : pyStrip st.expNameText ≠ "")
    (h3 : st.configTemplate ≠ "") (h4 : st.dataDir ≠ "")
    (htmpl : lookupKey fs st.configTemplate = some tmpl) :
    (createNewExperiment st fs).2 = CreateResult.success ∧
    lookupKey ((createNewExperiment st fs).1) (newConfigPath st) =
      some (derivedConfig st tmpl) ∧
    (∀ q, q ≠ newConfigPath st →
        lookupKey ((createNewExperiment st fs).1) q = lookupKey fs q) ∧
    lookupKey (derivedConfig st tmpl) "exp_name" =
      some (Val.prim (pyStrip st.expNameText)) ∧
    lookupKey (derivedConfig st tmpl) "work_dir" = some (Val.prim (experimentDir st)) ∧
    lookupKey (derivedConfig st tmpl) "data_dir" = some (Val.prim st.dataDir) ∧
    lookupKey (derivedConfig st tmpl) "cores" = some (Val.prim (toString st.cores)) := by
  have hcond :
      ¬ (st.workDir = "" ∨ pyStrip st.expNameText = "" ∨ st.configTemplate = "" ∨
          st.dataDir = "") := by
    intro h
    rcases h with h | h | h | h
    · exact h1 h
    · exact h2 h
    · exact h3 h
    · exact h4 h
  have hrun :
      createNewExperiment st fs =
        (setKey fs (newConfigPath st) (derivedConfig st tmpl), CreateResult.success) := by
    rw [createNewExperiment, if_neg hcond, htmpl]
  refine ⟨by rw [hrun], ?_, ?_, ?_, ?_, ?_, ?_⟩
  · rw [hrun]
    exact lookupKey_setKey_self fs (newConfigPath st) (derivedConfig st tmpl)
  · intro q hq
    rw [hrun]
    exact lookupKey_setKey_other fs (newConfigPath st) q (derivedConfig st tmpl)
      (fun h => hq h.symm)
  · rw [derivedConfig, lookupKey_setKey_other _ _ _ _ (by decide),
      lookupKey_setKey_other _ _ _ _ (by decide), lookupKey_setKey_self]
  · rw [derivedConfig, lookupKey_setKey_other _ _ _ _ (by decide),
      lookupKey_setKey_other _ _ _ _ (by decide),
      lookupKey_setKey_other _ _ _ _ (by decide), lookupKey_setKey_self]
  · rw [derivedConfig, lookupKey_setKey_other _ _ _ _ (by decide),
      lookupKey_setKey_other _ _ _ _ (by decide),
      lookupKey_setKey_other _ _ _ _ (by decide),
      lookupKey_setKey_other _ _ _ _ (by decide), lookupKey_setKey_self]
  · rw [derivedConfig, lookupKey_setKey_other _ _ _ _ (by decide), lookupKey_setKey_self]

/-- Witness for the amended C1, at the same input as the counterexample
(the experiment directory already holds a config). -/
theorem claim_create_new_behavior_witness :
    lookupKey
        ([("/w/exp1/exp1_config.yml", ([("exp_name", Val.prim "old_exp")] : ConfigDoc)),
          ("/w/template.yml", [("cores", Val.prim "2")])])
        "/w/template.yml" = some [("cores", Val.prim "2")] ∧
    (createNewExperiment ⟨"/w", "exp1", "/data", "/w/template.yml", 4, []⟩
        [("/w/exp1/exp1_config.yml", [("exp_name", Val.prim "old_exp")]),
          ("/w/template.yml", [("cores", Val.prim "2")])]).2 = CreateResult.success := by
  refine ⟨rfl, ?_⟩
  exact
    (claim_create_new_behavior ⟨"/w", "exp1", "/data", "/w/template.yml", 4, []⟩
      [("/w/exp1/exp1_config.yml", [("exp_name", Val.prim "old_exp")]),
        ("/w/template.yml", [("cores", Val.prim "2")])]
      [("cores", Val.prim "2")]
      (by decide) (by decide) (by decide) (by decide) rfl).1

/-- **C9** (refuted as stated).  The claim promises that no returned match
has a name beginning with a dot ("hidden files and directories are always
excluded").  But the leading-dot filter is applied only to files: a
non-empty *directory* named `.hidden` is returned as a match under the
pattern list `['*']`. -/
theorem claim_archive_check_cex :
    checkOutputs [⟨".hidden", true, true⟩] ["*"] [] = [⟨".hidden", true, true⟩] ∧
    startsDot ".hidden" = true := by
  constructor
  · decide
  · decide

/-- **C9** (amended).  Every match returned by the check phase of
`check_and_archive_outputs` is a directory entry that matches at least one
requested pattern and no exclude pattern; matched *files* never have a name
beginning with a dot; matched *directories* (hidden or not) never contain
`archive_` in their name, are non-empty, and are only returned when the
pattern that found them is the match-everything pattern `*` — which need
not be the only requested pattern. -/
theorem claim_archive_check_sound (entries : List DirEntry) (pats excls : List String)
    (e : DirEntry) (he : e ∈ checkOutputs entries pats excls) :
    e ∈ entries ∧
    (∃ pat, pat ∈ pats ∧ globMatches pat e.name = true) ∧
    (∀ exc, exc ∈ excls → globMatches exc e.name = false) ∧
    (e.isDir = false → startsDot e.name = false) ∧
    (e.isDir = true → nameHasArchive e.name = false ∧ "*" ∈ pats ∧ e.hasChildren = true) := by
  simp only [checkOutputs, List.mem_flatMap, List.mem_filterMap, List.mem_filter] at he
  obtain ⟨pat, hpat, p, ⟨hpe, hpm⟩, hf⟩ := he
  by_cases hexc : excls.any (fun exc => globMatches exc p.name) = true
  · rw [if_pos hexc] at hf
    cases hf
  · rw [if_neg hexc] at hf
    have hexcall : ∀ exc, exc ∈ excls → globMatches exc p.name = false := by
      intro exc hx
      by_contra hcon
      exact hexc (List.any_eq_true.mpr ⟨exc, hx, by simpa using hcon⟩)
    by_cases hfile : (!p.isDir && !startsDot p.name) = true
    · rw [if_pos hfile] at hf
      obtain rfl : p = e := Option.some.inj hf
      obtain ⟨hnd, hsd⟩ := Bool.and_eq_true_iff.mp hfile
      refine ⟨hpe, ⟨pat, hpat, hpm⟩, hexcall, ?_, ?_⟩
      · intro _
        simpa using hsd
      · intro hdir
        rw [hdir] at hnd
        simp at hnd
    · rw [if_neg hfile] at hf
      by_cases hdir : (p.isDir && !nameHasArchive p.name) = true
      · rw [if_pos hdir] at hf
        by_cases hstar : (pat = "*" && p.hasChildren) = true
        · rw [if_pos hstar] at hf
          obtain rfl : p = e := Option.some.inj hf
          obtain ⟨hd, hna⟩ := Bool.and_eq_true_iff.mp hdir
          obtain ⟨hps, hch⟩ := Bool.and_eq_true_iff.mp hstar
          refine ⟨hpe, ⟨pat, hpat, hpm⟩, hexcall, ?_, ?_⟩
          · intro hfalse
            rw [hfalse] at hd
            cases hd
          · intro _
            exact ⟨by simpa using hna, by rw [← of_decide_eq_true hps]; exact hpat, hch⟩
        · rw [if_neg hstar] at hf
          cases hf
      · rw [if_neg hdir] at hf
        cases hf

/-- Witness for the amended C9, with the distance tab's patterns: `a.csv`
is found under `*.csv` and is not excluded by `*AVV*`. -/
theorem claim_archive_check_sound_witness :
    (⟨"a.csv", false, false⟩ : DirEntry) ∈
        checkOutputs [⟨"a.csv", false, false⟩, ⟨"b_AVV_x.csv", false, false⟩]
          ["*.csv", "*.svg", "*.png"] ["*AVV*"] ∧
    startsDot "a.csv" = false := by
  refine ⟨by decide, ?_⟩
  exact
    (claim_archive_check_sound [⟨"a.csv", false, false⟩, ⟨"b_AVV_x.csv", false, false⟩]
      ["*.csv", "*.svg", "*.png"] ["*AVV*"] ⟨"a.csv", false, false⟩
      (by decide)).2.2.2.1 rfl

/-- **C3** (confirmed).  For every prior state of the alias path and every
executor outcome — the external process succeeding, failing with a non-zero
exit (a raised, caught `CalledProcessError`), or the executor raising some
other exception — `process_mrc_file`'s `finally` clause leaves nothing at
the alias path: after the run no per-item symlink remains.  Alias names are
keyed by experiment name plus input file name, so within one run (one
experiment) distinct inputs get distinct aliases: `linkName e` is
injective. -/
theorem claim_alias_cleanup (s : LinkState) (o : ExecOutcome) :
    (processWithLink s o).1.present = false ∧
    (processWithLink s o).1.isLink = false ∧
    (∀ e f1 f2 : String, linkName e f1 = linkName e f2 → f1 = f2) := by
  refine ⟨rfl, rfl, ?_⟩
  intro e f1 f2 h
  have hdata : e.data ++ f1.data = e.data ++ f2.data := by
    have h2 := congrArg String.data h
    simpa [linkName, String.data_append] using h2
  have hfd : f1.data = f2.data := List.append_cancel_left hdata
  cases f1
  cases f2
  exact congrArg String.mk hfd

/-- **C2** (refuted as stated).  In the distance tab, an executor exception
other than a non-zero process exit is *not* recorded as a failed item:
it re-raises out of `future.result()`, aborts the collection loop and ends
the run in the worker's critical-error handler.  With two work items whose
first completion raises, zero per-item results are recorded instead of the
claimed two (succeeded `N-1 = 1`, failed `1`). -/
theorem claim_failure_isolation_cex :
    (distanceRunWorker 2 [ExecOutcome.raiseOther, ExecOutcome.exit 0]).status =
        RunStatus.criticalError ∧
    (distanceRunWorker 2 [ExecOutcome.raiseOther, ExecOutcome.exit 0]).recorded = [] ∧
    ¬ (distanceRunWorker 2 [ExecOutcome.raiseOther, ExecOutcome.exit 0]).recorded.length = 2 := by
  refine ⟨rfl, rfl, ?_⟩
  decide

/-- **C2** (amended).  Per-item failure is isolated for every failure mode
the per-file functions catch: in the pycurv tab every executor outcome
(non-zero exit, file outside the work dir, any other exception) is recorded
as a per-item result, and in the distance tab every *process exit* is.  In
both cases a non-empty run of `N` items completes normally with exactly `N`
recorded results, the final status carries the success count, and
`succeeded + failed = N` — so when exactly one item fails,
`succeeded = N - 1` and `failed = 1`.  (An uncaught executor exception in
the distance tab instead aborts collection, as the counterexample shows.) -/
theorem claim_failure_isolation (cores : Nat) (pyOut : List PyOutcome)
    (dOut : List ExecOutcome) (hpy : pyOut ≠ []) (hd : dOut ≠ [])
    (hall : ∀ o ∈ dOut, o ≠ ExecOutcome.raiseOther) :
    ((pycurvRunWorker cores pyOut).recorded.length = pyOut.length ∧
      (pycurvRunWorker cores pyOut).status =
        RunStatus.completed (succeededCount (pycurvRunWorker cores pyOut).recorded) ∧
      succeededCount (pycurvRunWorker cores pyOut).recorded +
        failedCount (pycurvRunWorker cores pyOut).recorded = pyOut.length) ∧
    ((distanceRunWorker cores dOut).recorded.length = dOut.length ∧
      (distanceRunWorker cores dOut).status =
        RunStatus.completed (succeededCount (distanceRunWorker cores dOut).recorded) ∧
      succeededCount (distanceRunWorker cores dOut).recorded +
        failedCount (distanceRunWorker cores dOut).recorded = dOut.length) := by
  have hcount : ∀ l : List Int, succeededCount l + failedCount l = l.length := by
    intro l
    induction l with
    | nil => rfl
    | cons x xs ih =>
        rw [succeededCount, failedCount, List.length_cons]
        by_cases h : x = 0
        · rw [if_pos h, if_pos h]
          omega
        · rw [if_neg h, if_neg h]
          omega
  constructor
  · cases pyOut with
    | nil => exact absurd rfl hpy
    | cons o os =>
        have hmap : (o :: os).map (fun x => some (process_vtp_file x)) =
            ((o :: os).map process_vtp_file).map some := by
          rw [List.map_map]
          rfl
        have hrun :
            pycurvRunWorker cores (o :: os) =
              ⟨(o :: os).map process_vtp_file,
                (List.range ((o :: os).map process_vtp_file).length).map
                  (fun i => pyProgress (0 + i + 1) (o :: os).length),
                RunStatus.completed (succeededCount ((o :: os).map process_vtp_file)),
                min cores (o :: os).length⟩ := by
          simp only [pycurvRunWorker, hmap, collectLoop_map_some]
          rfl
        rw [hrun]
        refine ⟨by simp, rfl, ?_⟩
        have h := hcount ((o :: os).map process_vtp_file)
        simpa using h
  · cases dOut with
    | nil => exact absurd rfl hd
    | cons o os =>
        have hmap : (o :: os).map process_mrc_file =
            ((o :: os).map exitCode).map some := by
          rw [List.map_map]
          refine List.map_congr_left ?_
          intro x hx
          cases x with
          | exit rc => rfl
          | raiseOther => exact absurd rfl (hall _ hx)
        have hrun :
            distanceRunWorker cores (o :: os) =
              ⟨(o :: os).map exitCode,
                (List.range ((o :: os).map exitCode).length).map
                  (fun i => pyProgress (0 + i + 1) (o :: os).length),
                RunStatus.completed (succeededCount ((o :: os).map exitCode)),
                min cores (o :: os).length⟩ := by
          simp only [distanceRunWorker, hmap, collectLoop_map_some]
          rfl
        rw [hrun]
        refine ⟨by simp, rfl, ?_⟩
        have h := hcount ((o :: os).map exitCode)
        simpa using h

/-- Witness for the amended C2: two pycurv items of which the second raises
(recorded `-1`), and two distance items of which the second exits `1`;
both runs complete with two results and success count one. -/
theorem claim_failure_isolation_witness :
    ([PyOutcome.exit 0, PyOutcome.raiseOther] ≠ []) ∧
    (pycurvRunWorker 2 [PyOutcome.exit 0, PyOutcome.raiseOther]).recorded.length = 2 ∧
    (distanceRunWorker 2 [ExecOutcome.exit 0, ExecOutcome.exit 1]).status =
      RunStatus.completed 1 := by
  refine ⟨by decide, ?_, ?_⟩
  · exact
      (claim_failure_isolation 2 [PyOutcome.exit 0, PyOutcome.raiseOther]
        [ExecOutcome.exit 0, ExecOutcome.exit 1] (by decide) (by decide)
        (by decide)).1.1
  · have h :=
      (claim_failure_isolation 2 [PyOutcome.exit 0, PyOutcome.raiseOther]
        [ExecOutcome.exit 0, ExecOutcome.exit 1] (by decide) (by decide)
        (by decide)).2.2.1
    simpa using h

/-- **C6** (confirmed).  With no work items, both workers return before
creating a thread pool: no per-item results (an empty summary,
`total = succeeded = failed = 0`), no progress reports, no worker threads,
and no exception — the early-return status is the no-files message, not the
critical-error handler. -/
theorem claim_empty_run (cores : Nat) :
    distanceRunWorker cores [] = ⟨[], [], RunStatus.noFiles, 0⟩ ∧
    pycurvRunWorker cores [] = ⟨[], [], RunStatus.noFiles, 0⟩ :=
  ⟨rfl, rfl⟩

/-- **C7** (refuted as stated).  The loop computes
`int((processed / total) * 100)` — float truncation — not
`round(100 * completed / total)`.  At the second completion of three items
the code reports 66 while the claimed formula gives 67.  (The binary64
evaluation also undershoots at some inputs where truncation and rounding of
the exact ratio agree: at 29 completions of 100 the float product is just
below 29, so the code reports 28 where the claimed formula gives 29.) -/
theorem claim_progress_formula_cex :
    (pycurvRunWorker 2 [PyOutcome.exit 0, PyOutcome.exit 0, PyOutcome.exit 0]).progress =
        [33, 66, 100] ∧
    claimedProgress 2 3 = 67 ∧ (66 : Int) ≠ 67 ∧
    pyProgress 29 100 = 28 ∧ claimedProgress 29 100 = 29 := by
  refine ⟨rfl, ?_, by decide, by decide, ?_⟩
  · norm_num [claimedProgress, round_eq]
  · norm_num [claimedProgress, round_eq]

/-- **C7** (amended).  On each completion the loop increments the shared
counter by one (under the lock) and reports
`int((completed / total) * 100)` — the binary64 evaluation of the ratio,
truncated, not `round(...)`: the `k`-th delivered progress value (1-based)
is `pyProgress k total`, the exact model of that float computation, for
every pycurv run and for every distance run whose executors do not raise
outside `CalledProcessError`. -/
theorem claim_progress_per_completion (cores : Nat) (pyOut : List PyOutcome)
    (dOut : List ExecOutcome) (hall : ∀ o ∈ dOut, o ≠ ExecOutcome.raiseOther) :
    (pycurvRunWorker cores pyOut).progress =
      (List.range pyOut.length).map (fun i => pyProgress (i + 1) pyOut.length) ∧
    (distanceRunWorker cores dOut).progress =
      (List.range dOut.length).map (fun i => pyProgress (i + 1) dOut.length) := by
  constructor
  · cases pyOut with
    | nil => rfl
    | cons o os =>
        have hmap : (o :: os).map (fun x => some (process_vtp_file x)) =
            ((o :: os).map process_vtp_file).map some := by
          rw [List.map_map]
          rfl
        simp only [pycurvRunWorker, hmap, collectLoop_map_some, List.length_map]
        refine List.map_congr_left ?_
        intro i _
        have h : 0 + i + 1 = i + 1 := by omega
        rw [h]
  · cases dOut with
    | nil => rfl
    | cons o os =>
        have hmap : (o :: os).map process_mrc_file =
            ((o :: os).map exitCode).map some := by
          rw [List.map_map]
          refine List.map_congr_left ?_
          intro x hx
          cases x with
          | exit rc => rfl
          | raiseOther => exact absurd rfl (hall _ hx)
        simp only [distanceRunWorker, hmap, collectLoop_map_some, List.length_map]
        refine List.map_congr_left ?_
        intro i _
        have h : 0 + i + 1 = i + 1 := by omega
        rw [h]

/-- Witness for the amended C7: five items, the values
`20, 40, 60, 80, 100` are delivered in order. -/
theorem claim_progress_per_completion_witness :
    ((ExecOutcome.exit 0 : ExecOutcome) ≠ ExecOutcome.raiseOther) ∧
    (distanceRunWorker 2
        [ExecOutcome.exit 0, ExecOutcome.exit 1, ExecOutcome.exit 0,
          ExecOutcome.exit 1, ExecOutcome.exit 0]).progress =
      (List.range 5).map (fun i => pyProgress (i + 1) 5) ∧
    (List.range 5).map (fun i => pyProgress (i + 1) 5) = [20, 40, 60, 80, 100] := by
  refine ⟨by decide, ?_, by decide⟩
  exact
    (claim_progress_per_completion 2 []
      [ExecOutcome.exit 0, ExecOutcome.exit 1, ExecOutcome.exit 0,
        ExecOutcome.exit 1, ExecOutcome.exit 0]
      (by decide)).2

/-- **C8** (confirmed).  Progress values are delivered in non-decreasing
order in every run — including a distance run aborted by an uncaught
executor exception, whose progress reports form a prefix — and when the
run is non-empty and every item completes, the final report is 100.
`List.Sorted (· ≤ ·)` here states that the reported sequence is
non-decreasing. -/
theorem claim_progress_monotone (cores : Nat) (pyOut : List PyOutcome)
    (dOut anyOut : List ExecOutcome)
    (hpy : pyOut ≠ []) (hd : dOut ≠ [])
    (hall : ∀ o ∈ dOut, o ≠ ExecOutcome.raiseOther) :
    ((pycurvRunWorker cores pyOut).progress).Sorted (· ≤ ·) ∧
    ((pycurvRunWorker cores pyOut).progress).getLast? = some 100 ∧
    ((distanceRunWorker cores anyOut).progress).Sorted (· ≤ ·) ∧
    ((distanceRunWorker cores dOut).progress).getLast? = some 100 := by
  refine ⟨?_, ?_, ?_, ?_⟩
  · cases pyOut with
    | nil => exact absurd rfl hpy
    | cons o os =>
        simp only [pycurvRunWorker]
        exact collectLoop_progress_sorted _ _ _ (by simp)
  · cases pyOut with
    | nil => exact absurd rfl hpy
    | cons o os =>
        have hmap : (o :: os).map (fun x => some (process_vtp_file x)) =
            ((o :: os).map process_vtp_file).map some := by
          rw [List.map_map]
          rfl
        simp only [pycurvRunWorker, hmap]
        refine collectLoop_map_some_last _ _ _ (by simp) ?_
        simp
  · cases anyOut with
    | nil => simp [distanceRunWorker]
    | cons o os =>
        simp only [distanceRunWorker]
        exact collectLoop_progress_sorted _ _ _ (by simp)
  · cases dOut with
    | nil => exact absurd rfl hd
    | cons o os =>
        have hmap : (o :: os).map process_mrc_file =
            ((o :: os).map exitCode).map some := by
          rw [List.map_map]
          refine List.map_congr_left ?_
          intro x hx
          cases x with
          | exit rc => rfl
          | raiseOther => exact absurd rfl (hall _ hx)
        simp only [distanceRunWorker, hmap]
        refine collectLoop_map_some_last _ _ _ (by simp) ?_
        simp

/-- Witness for C8: a three-item pycurv run with a failure in the middle
still reports a final 100. -/
theorem claim_progress_monotone_witness :
    ([PyOutcome.exit 0, PyOutcome.exit 1, PyOutcome.exit 0] ≠ ([] : List PyOutcome)) ∧
    ((pycurvRunWorker 2
        [PyOutcome.exit 0, PyOutcome.exit 1, PyOutcome.exit 0]).progress).getLast? =
      some 100 := by
  refine ⟨by decide, ?_⟩
  exact
    (claim_progress_monotone 2 [PyOutcome.exit 0, PyOutcome.exit 1, PyOutcome.exit 0]
      [ExecOutcome.exit 0] [] (by decide) (by decide) (by decide)).2.1

/-- **C10** (confirmed).  While `is_running` is set, `_run_job` returns at
its first statement in both tabs: no second worker thread is started, no
config write happens, and the widget state is untouched.  Every worker
exit path funnels through `_job_cleanup`, which clears the flag. -/
theorem claim_single_job_guard (s : WidgetState) (h : s.isRunning = true) :
    pycurvRunJob s = s ∧
    (∀ updateOk scriptFound archiveProceed : Bool,
        distanceRunJob s updateOk scriptFound archiveProceed = s) ∧
    (∀ (s2 : WidgetState) (bodyRaised : Bool),
        (runWorkerLifecycle s2 bodyRaised).isRunning = false) := by
  refine ⟨?_, ?_, ?_⟩
  · rw [pycurvRunJob, if_pos h]
  · intro u sf ap
    rw [distanceRunJob, if_pos h]
  · intro s2 b
    rfl

/-- Witness for C10: a concrete running widget state; a second click
changes nothing. -/
theorem claim_single_job_guard_witness :
    (⟨true, false, 1, 0⟩ : WidgetState).isRunning = true ∧
    pycurvRunJob ⟨true, false, 1, 0⟩ = ⟨true, false, 1, 0⟩ :=
  ⟨rfl, (claim_single_job_guard ⟨true, false, 1, 0⟩ rfl).1⟩

end Morphometrics
